import Mathlib

/-!
Verification development for the i18n bootstrap tool
(`hack/i18n/bootstrap.py`): path classification into document families,
change filtering, source-of-truth resolution, and target planning.

File paths are embedded structurally: a path is its parent-directory
components, the filename stem (Python `Path.stem`, the name without the
final extension) and the final extension (Python `Path.suffix`,
including the leading dot).  Python `dict`s (which preserve insertion
order and update values in place) are embedded as association lists
with `dictGet?` / `dictInsert` mirroring `d[k]` lookup and
`d[k] = v` assignment.  Python string primitives used by the code
(`str.split(sep)`, `str.strip()`, `str.endswith`) are embedded as
structurally recursive functions over the character list so that every
definition evaluates by `decide`.
-/

/-- Python `str.split(sep)` for a one-character separator, on a
character list: always returns at least one (possibly empty) chunk. -/
def splitOnChar (c : Char) : List Char → List (List Char)
  | [] => [[]]
  | x :: xs =>
    let r := splitOnChar c xs
    if x = c then
      [] :: r
    else
      match r with
      | y :: ys => (x :: y) :: ys
      | [] => [[x]]

/-- Python `s.split(sep)` for a one-character separator. -/
def pySplit (sep : Char) (s : String) : List String :=
  (splitOnChar sep s.toList).map String.mk

/-- Python `sep.join(parts)`. -/
def joinWith (sep : String) : List String → String
  | [] => ""
  | [a] => a
  | a :: rest => a ++ sep ++ joinWith sep rest

/-- Whitespace characters removed by Python `str.strip()`. -/
def isStripChar (c : Char) : Bool :=
  c = ' ' || c = '\t' || c = '\n' || c = '\r'

/-- Python `s.strip()`: drop leading and trailing whitespace. -/
def pyStrip (s : String) : String :=
  String.mk ((((s.toList.dropWhile isStripChar).reverse).dropWhile isStripChar).reverse)

/-- Python `s.endswith(suffix)`. -/
def pyEndsWith (s suffix : String) : Bool :=
  suffix.toList.isSuffixOf s.toList

/-- Lookup in an insertion-ordered dictionary embedded as an
association list: Python `d[k]` / `k in d`. -/
def dictGet? {κ α : Type} [DecidableEq κ] : List (κ × α) → κ → Option α
  | [], _ => none
  | kv :: rest, k => if kv.1 = k then some kv.2 else dictGet? rest k

/-- Assignment `d[k] = v` in an insertion-ordered dictionary: update in
place when the key is present, append at the end otherwise. -/
def dictInsert {κ α : Type} [DecidableEq κ] : List (κ × α) → κ → α → List (κ × α)
  | [], k, v => [(k, v)]
  | kv :: rest, k, v => if kv.1 = k then (k, v) :: rest else kv :: dictInsert rest k v

/-- A file path: parent directory components, stem and extension.
`FPath ["content", "docs"] "index.en" ".mdx"` stands for
`content/docs/index.en.mdx`. -/
structure FPath where
  dir : List String
  stem : String
  ext : String
deriving DecidableEq, Repr

/-- The filename with its extension (Python `Path.name`). -/
def FPath.fileName (p : FPath) : String := p.stem ++ p.ext

/-- Render a component list as a slash-joined path string
(Python `str(Path(...))` for a relative path). -/
def joinSlash : List String → String
  | [] => ""
  | [a] => a
  | a :: rest => a ++ "/" ++ joinSlash rest

/-- Render an `FPath` as its path string. -/
def renderFPath (p : FPath) : String :=
  joinSlash (p.dir ++ [p.stem ++ p.ext])

/-- `get_path_prefix_and_lang` from `bootstrap.py`: classify a file
path into its language-independent family key and its locale.
Rule 1: a stem of at least two dot-segments whose last segment is a
supported locale (`index.en`); rule 2: a stem that is itself a
supported locale (`en` of `en.json`), the key being the containing
directory; rule 3: default-locale fallback. -/
def get_path_prefix_and_lang (p : FPath) (default_locale : String)
    (supported_locales : List String) : List String × String :=
  let base_name_parts := pySplit '.' p.stem
  if base_name_parts.length > 1 ∧ base_name_parts.getLastD "" ∈ supported_locales then
    (p.dir ++ [joinWith "." base_name_parts.dropLast], base_name_parts.getLastD "")
  else if p.stem ∈ supported_locales then
    (p.dir, p.stem)
  else
    (p.dir ++ [p.stem], default_locale)

/-- One document family: an insertion-ordered mapping locale → file. -/
abbrev Family := List (String × FPath)

/-- All document families: an insertion-ordered mapping
family key → family. -/
abbrev Families := List (List String × Family)

/-- The scan filter of the family builder: Python
`file.endswith('.mdx') or file.endswith('.json') or file.endswith('.md')`. -/
def wantedFile (p : FPath) : Bool :=
  pyEndsWith p.fileName ".mdx" || pyEndsWith p.fileName ".json" || pyEndsWith p.fileName ".md"

/-- One step of the scan loop of `main`: classify a candidate file and
insert it under its family key (creating the family on first use). -/
def addFile (default_locale : String) (supported_locales : List String)
    (fams : Families) (p : FPath) : Families :=
  if wantedFile p then
    let kl := get_path_prefix_and_lang p default_locale supported_locales
    let sub := (dictGet? fams kl.1).getD []
    dictInsert fams kl.1 (dictInsert sub kl.2 p)
  else
    fams

/-- The family builder: the scan loop of `main` over the enumerated
candidate files. -/
def buildFamilies (files : List FPath) (default_locale : String)
    (supported_locales : List String) : Families :=
  files.foldl (addFile default_locale supported_locales) []

/-- Python `[p.strip() for p in s.split(',') if p.strip()]`: the raw
parse of the `--changed-files` argument. -/
def parseChangedRaw (s : String) : List String :=
  ((pySplit ',' s).map pyStrip).filter (fun t => t ≠ "")

/-- The `--changed-files` argument as `main` sees it: Python tests the
truthiness of the raw string (`if args.changed_files:`), so the empty
string means no filtering at all (`none`), while any non-empty string
is parsed and each entry resolved to a path (`munge` stands for the
root-prefix stripping and absolutization of lines 157-171, which is
per-entry). A non-empty string may still parse to zero paths
(e.g. `","`), giving `some []`. -/
def changedArgOfString (s : String) (munge : String → FPath) : Option (List FPath) :=
  if s = "" then none else some ((parseChangedRaw s).map munge)

/-- The filtering loop of `main` (lines 177-183): keep the families
with at least one member path in the changed-files list. -/
def changeFilter (fams : Families) (cs : List FPath) : Families :=
  fams.filter (fun kv => kv.2.any (fun lp => decide (lp.2 ∈ cs)))

/-- Step 2 of `main` as a whole: filtering happens only when the
`--changed-files` string was non-empty. -/
def changeFilterStep (fams : Families) (arg : Option (List FPath)) : Families :=
  match arg with
  | none => fams
  | some cs => changeFilter fams cs

/-- The outcome of source-of-truth resolution for one family. -/
inductive ResolveResult where
  | ok (lang : String) (path : FPath)
  | ambiguous
  | emptyFamily
deriving DecidableEq, Repr

/-- Python `{lang: path for lang, path in files_map.items() if path in
changed_files_list}`: the members of the family that were changed. -/
def familyChanged (fm : Family) (cs : List FPath) : Family :=
  fm.filter (fun lp => decide (lp.2 ∈ cs))

/-- The source-of-truth resolution of `main` (lines 195-227), in the
code's decision order: a changed default-locale member wins; else a
single changed member wins; else several changed members are
ambiguous (the family is skipped); else the default-locale member if
present, else the first-enumerated member; an empty family is an
error branch. -/
def resolve (fm : Family) (default_locale : String) (cs : List FPath) : ResolveResult :=
  match dictGet? (familyChanged fm cs) default_locale with
  | some p => .ok default_locale p
  | none =>
    match familyChanged fm cs with
    | [lp] => .ok lp.1 lp.2
    | _ :: _ :: _ => .ambiguous
    | [] =>
      match dictGet? fm default_locale with
      | some p => .ok default_locale p
      | none =>
        match fm with
        | lp :: _ => .ok lp.1 lp.2
        | [] => .emptyFamily

/-- `targets_to_create` of `main`: supported locales with no file in
the family. -/
def targets_to_create (fm : Family) (supported_locales : List String) : List String :=
  supported_locales.filter (fun lang => decide (dictGet? fm lang = none))

/-- `targets_to_update` of `main`: supported locales present in the
family other than the source of truth. -/
def targets_to_update (fm : Family) (supported_locales : List String)
    (source_of_truth_lang : String) : List String :=
  supported_locales.filter
    (fun lang => decide ((dictGet? fm lang).isSome = true) && decide (lang ≠ source_of_truth_lang))

/-- Appending a string to the last component of a path: the effect of
Python string concatenation `f"{p}{s}"` on a rendered path `p` (for an
`s` without slashes), re-read as a path. -/
def appendToLast (s : String) : List String → List String
  | [] => [s]
  | [a] => [a ++ s]
  | a :: rest => a :: appendToLast s rest

/-- The destination path of a newly created locale file (lines
249-269), as its component list: when the source file's stem is itself
a supported locale (`zh.json` style) the destination is
`Path(prefix) / f"{lang}{suffix}"`, the family key being the
directory; otherwise the family key string gets `suffix` appended
directly for the default locale (`f"{prefix}{suffix}"`) and
`f"{prefix}.{lang}{suffix}"` for any other locale. -/
def creationTargetComponents (famKey : List String) (sot : FPath)
    (lang default_locale : String) (supported_locales : List String) : List String :=
  if sot.stem ∈ supported_locales then
    famKey ++ [lang ++ sot.ext]
  else if lang = default_locale then
    appendToLast sot.ext famKey
  else
    appendToLast ("." ++ lang ++ sot.ext) famKey

/-- A filesystem action of the creation write loop (lines 270-276):
`target_path.parent.mkdir(parents=True, exist_ok=True)` followed by
writing the translated content. -/
inductive FsAction where
  | mkdirParents (dir : List String)
  | writeFile (path : List String) (content : String)
deriving DecidableEq, Repr

/-- The creation write loop: for each `(lang, content)` pair returned
by the backend, make the parent directories of the destination and
then write the file there. -/
def writeCreationResults (famKey : List String) (sot : FPath) (default_locale : String)
    (supported_locales : List String) (results : List (String × String)) : List FsAction :=
  results.flatMap (fun lc =>
    let tp := creationTargetComponents famKey sot lc.1 default_locale supported_locales
    [FsAction.mkdirParents tp.dropLast, FsAction.writeFile tp lc.2])

/-- An observable step of the per-family processing loop of `main`
(step 3): the two kinds of skip diagnostics, and the two calls to the
translation backend (`translate_files` with
`write_to_existing_files=False` for creation and `=True` for update). -/
inductive Event where
  | skipAmbiguous (famKey : List String)
  | skipEmpty (famKey : List String)
  | createCall (famKey : List String) (lang : String) (src : FPath) (targets : List String)
  | updateCall (famKey : List String) (lang : String) (src : FPath) (targets : List String)
deriving DecidableEq, Repr

/-- A translation backend: each call either succeeds (`none`) or
raises an exception carrying a message (`some msg`).  The content it
returns is irrelevant to control flow and is not modelled here. -/
abbrev Backend := Event → Option String

/-- Sequencing under Python exception semantics: if the first part
raised, the continuation never runs (there is no `try`/`except` in
`main`); otherwise its events follow. -/
def seqRun (a : List Event × Option String) (k : Unit → List Event × Option String) :
    List Event × Option String :=
  match a with
  | (evs, some e) => (evs, some e)
  | (evs, none) =>
    let b := k ()
    (evs ++ b.1, b.2)

/-- One backend call and its outcome. -/
def callBackend (backend : Backend) (ev : Event) : List Event × Option String :=
  ([ev], backend ev)

/-- The body of the per-family loop of `main`: resolve the source of
truth (skipping on ambiguity or emptiness via `continue`), then issue
the creation call when some locales are missing and the update call
when some existing locales are stale. -/
def runFamily (backend : Backend) (default_locale : String) (supported_locales : List String)
    (cs : List FPath) (entry : List String × Family) : List Event × Option String :=
  match resolve entry.2 default_locale cs with
  | .ambiguous => ([Event.skipAmbiguous entry.1], none)
  | .emptyFamily => ([Event.skipEmpty entry.1], none)
  | .ok lang p =>
    let tc := targets_to_create entry.2 supported_locales
    let tu := targets_to_update entry.2 supported_locales lang
    seqRun
      (if tc.isEmpty then ([], none)
       else callBackend backend (Event.createCall entry.1 lang p tc))
      (fun _ =>
        if tu.isEmpty then ([], none)
        else callBackend backend (Event.updateCall entry.1 lang p tu))

/-- The per-family loop of `main` over all surviving families.  An
exception raised inside one family propagates (no handler exists in
the loop), so the remaining families are not reached. -/
def runAll (backend : Backend) (default_locale : String) (supported_locales : List String)
    (cs : List FPath) : List (List String × Family) → List Event × Option String
  | [] => ([], none)
  | f :: rest =>
    seqRun (runFamily backend default_locale supported_locales cs f)
      (fun _ => runAll backend default_locale supported_locales cs rest)

/-- The observable result of one run of `main`. -/
structure RunResult where
  events : List Event
  earlyExit : Bool
  error : Option String
deriving DecidableEq, Repr

/-- `main` after configuration reading: build the families from the
scanned files, filter them when a changed-files argument was given
(exiting successfully via `sys.exit(0)` when nothing survives the
filter), then run the per-family loop.  Without the argument the
changed list stays empty. -/
def mainRun (backend : Backend) (default_locale : String) (supported_locales : List String)
    (files : List FPath) (changedArg : Option (List FPath)) : RunResult :=
  let fams := buildFamilies files default_locale supported_locales
  match changedArg with
  | none =>
    let r := runAll backend default_locale supported_locales [] fams
    ⟨r.1, false, r.2⟩
  | some cs =>
    let fams2 := changeFilter fams cs
    if fams2.isEmpty then
      ⟨[], true, none⟩
    else
      let r := runAll backend default_locale supported_locales cs fams2
      ⟨r.1, false, r.2⟩

/-! ### Dictionary lemmas -/

theorem dictGet?_mem {κ α : Type} [DecidableEq κ] {d : List (κ × α)} {k : κ} {v : α}
    (h : dictGet? d k = some v) : (k, v) ∈ d := by
  induction d with
  | nil => simp [dictGet?] at h
  | cons kv rest ih =>
    obtain ⟨a, b⟩ := kv
    rw [dictGet?] at h
    by_cases hk : a = k
    · subst hk
      simp only [if_pos rfl] at h
      cases h
      exact List.mem_cons_self _ _
    · simp only [if_neg hk] at h
      exact List.mem_cons_of_mem _ (ih h)

theorem dictGet?_isSome_of_mem {κ α : Type} [DecidableEq κ] {d : List (κ × α)} {k : κ} {v : α}
    (h : (k, v) ∈ d) : (dictGet? d k).isSome := by
  induction d with
  | nil => simp at h
  | cons kv rest ih =>
    rw [dictGet?]
    by_cases hk : kv.1 = k
    · simp [hk]
    · simp only [if_neg hk]
      rcases List.mem_cons.1 h with h1 | h2
      · exact absurd (congrArg Prod.fst h1.symm) hk
      · exact ih h2

theorem dictGet?_isSome_iff {κ α : Type} [DecidableEq κ] (d : List (κ × α)) (k : κ) :
    (dictGet? d k).isSome ↔ k ∈ d.map Prod.fst := by
  induction d with
  | nil => simp [dictGet?]
  | cons kv rest ih =>
    rw [dictGet?]
    by_cases hk : kv.1 = k
    · simp [hk]
    · simp [if_neg hk, ih, Ne.symm hk]

theorem mem_dictInsert {κ α : Type} [DecidableEq κ] {d : List (κ × α)} {k : κ} {v : α}
    {x : κ × α} (h : x ∈ dictInsert d k v) : x ∈ d ∨ x = (k, v) := by
  induction d with
  | nil => simp [dictInsert] at h; right; exact h
  | cons kv rest ih =>
    rw [dictInsert] at h
    by_cases hk : kv.1 = k
    · simp only [if_pos hk] at h
      rcases List.mem_cons.1 h with h1 | h2
      · right; exact h1
      · left; exact List.mem_cons_of_mem _ h2
    · simp only [if_neg hk] at h
      rcases List.mem_cons.1 h with h1 | h2
      · left; exact h1 ▸ List.mem_cons_self _ _
      · rcases ih h2 with h3 | h3
        · left; exact List.mem_cons_of_mem _ h3
        · right; exact h3

theorem dictInsert_ne_nil {κ α : Type} [DecidableEq κ] (d : List (κ × α)) (k : κ) (v : α) :
    dictInsert d k v ≠ [] := by
  cases d with
  | nil => simp [dictInsert]
  | cons kv rest =>
    rw [dictInsert]
    by_cases hk : kv.1 = k
    · simp [if_pos hk]
    · simp [if_neg hk]

/-- A changed lookup survives the `familyChanged` filter: the first
default-locale entry of the family, when its path was changed, is also
the first default-locale entry of the changed sub-dictionary. -/
theorem dictGet?_familyChanged {fm : Family} {dl : String} {p : FPath} {cs : List FPath}
    (hget : dictGet? fm dl = some p) (hmem : p ∈ cs) :
    dictGet? (familyChanged fm cs) dl = some p := by
  induction fm with
  | nil => simp [dictGet?] at hget
  | cons lp rest ih =>
    rw [dictGet?] at hget
    by_cases hk : lp.1 = dl
    · simp only [if_pos hk] at hget
      cases hget
      rw [familyChanged, List.filter_cons, if_pos (by simpa using hmem)]
      rw [dictGet?, if_pos hk]
    · simp only [if_neg hk] at hget
      rw [familyChanged, List.filter_cons]
      by_cases hc : lp.2 ∈ cs
      · rw [if_pos (by simpa using hc), dictGet?, if_neg hk]
        exact ih hget
      · rw [if_neg (by simpa using hc)]
        exact ih hget

/-! ### Resolver lemmas -/

/-- An elected source of truth is always a member of its family. -/
theorem resolve_ok_mem {fm : Family} {dl : String} {cs : List FPath} {l : String} {p : FPath}
    (h : resolve fm dl cs = ResolveResult.ok l p) : (l, p) ∈ fm := by
  unfold resolve at h
  rcases hq : dictGet? (familyChanged fm cs) dl with _ | q
  all_goals rw [hq] at h
  · rcases hfc : familyChanged fm cs with _ | ⟨lp, _ | ⟨lp2, rest⟩⟩
    all_goals rw [hfc] at h
    · rcases hq2 : dictGet? fm dl with _ | q2
      all_goals rw [hq2] at h
      · rcases hfm : fm with _ | ⟨lp, rest⟩
        all_goals rw [hfm] at h
        · simp at h
        · simp only [ResolveResult.ok.injEq] at h
          obtain ⟨h1, h2⟩ := h
          rw [← h1, ← h2]
          exact List.mem_cons_self _ _
      · simp only [ResolveResult.ok.injEq] at h
        obtain ⟨h1, h2⟩ := h
        rw [← h1, ← h2]
        exact dictGet?_mem hq2
    · simp only [ResolveResult.ok.injEq] at h
      obtain ⟨h1, h2⟩ := h
      have hm : lp ∈ familyChanged fm cs := by rw [hfc]; exact List.mem_cons_self _ _
      rw [← h1, ← h2]
      exact List.mem_of_mem_filter hm
    · simp at h
  · simp only [ResolveResult.ok.injEq] at h
    obtain ⟨h1, h2⟩ := h
    rw [← h1, ← h2]
    exact List.mem_of_mem_filter (dictGet?_mem hq)

/-- A non-empty family never hits the empty-family error branch. -/
theorem resolve_ne_emptyFamily {fm : Family} (dl : String) (cs : List FPath)
    (hfm : fm ≠ []) : resolve fm dl cs ≠ ResolveResult.emptyFamily := by
  unfold resolve
  rcases hq : dictGet? (familyChanged fm cs) dl with _ | q
  · rcases hfc : familyChanged fm cs with _ | ⟨lp, _ | ⟨lp2, rest⟩⟩
    · rcases hfm2 : fm with _ | ⟨lp, rest⟩
      · exact absurd hfm2 hfm
      · rcases hq2 : dictGet? (lp :: rest) dl with _ | q2 <;> simp
    · simp
    · simp
  · simp

/-! ### Sample concrete data (shared by several witnesses) -/

def pIndexEn : FPath := ⟨["content", "docs", "guide"], "index", ".mdx"⟩

def pIndexZh : FPath := ⟨["content", "docs", "guide"], "index.zh", ".mdx"⟩

def pIndexFr : FPath := ⟨["content", "docs", "guide"], "index.fr", ".mdx"⟩

def keyIndex : List String := ["content", "docs", "guide", "index"]

def pAlphaEn : FPath := ⟨["content", "docs"], "alpha", ".mdx"⟩

def keyAlpha : List String := ["content", "docs", "alpha"]

def pBetaEn : FPath := ⟨["content", "docs"], "beta", ".mdx"⟩

def keyBeta : List String := ["content", "docs", "beta"]

def pMsgZh : FPath := ⟨["messages"], "zh", ".json"⟩

/-! ### Claim theorems -/

/-- C1: for every document family and change set the source-of-truth
resolver follows the four-rule decision order: a changed default-locale
member is selected; else a single changed member is selected; else
(no changed member) the default-locale member is selected when present
and the first-enumerated member otherwise. -/
theorem resolver_decision_order (fm : Family) (dl : String) (cs : List FPath) :
    (∀ p, dictGet? fm dl = some p → p ∈ cs → resolve fm dl cs = ResolveResult.ok dl p) ∧
    (∀ lp, familyChanged fm cs = [lp] → resolve fm dl cs = ResolveResult.ok lp.1 lp.2) ∧
    (familyChanged fm cs = [] →
      (∀ p, dictGet? fm dl = some p → resolve fm dl cs = ResolveResult.ok dl p) ∧
      (dictGet? fm dl = none → ∀ lp rest, fm = lp :: rest →
        resolve fm dl cs = ResolveResult.ok lp.1 lp.2)) := by
  refine ⟨?_, ?_, ?_⟩
  · intro p hget hmem
    unfold resolve
    rw [dictGet?_familyChanged hget hmem]
  · intro lp hfc
    unfold resolve
    rw [hfc, dictGet?]
    by_cases hl : lp.1 = dl
    · rw [if_pos hl, ← hl]
    · rw [if_neg hl, dictGet?]
  · intro hfc
    constructor
    · intro p hget
      unfold resolve
      rw [hfc, hget]
      rfl
    · intro hnone lp rest hfm
      subst hfm
      unfold resolve
      rw [hfc, hnone]
      rfl

/-- C1 witness: the three decision rules at concrete families:
a changed default beats another changed member; a single changed
non-default member wins; with no changed member and no default member
the first-enumerated member wins. -/
theorem resolver_decision_order_witness :
    resolve [("en", pIndexEn), ("zh", pIndexZh)] "en" [pIndexEn, pIndexZh] =
      ResolveResult.ok "en" pIndexEn ∧
    resolve [("zh", pIndexZh), ("fr", pIndexFr)] "en" [pIndexZh] =
      ResolveResult.ok "zh" pIndexZh ∧
    resolve [("zh", pIndexZh)] "en" [] = ResolveResult.ok "zh" pIndexZh := by
  refine ⟨?_, ?_, ?_⟩
  · exact (resolver_decision_order _ "en" _).1 pIndexEn (by decide) (by decide)
  · exact (resolver_decision_order _ "en" _).2.1 ("zh", pIndexZh) (by decide)
  · exact ((resolver_decision_order _ "en" _).2.2 (by decide)).2 (by decide)
      ("zh", pIndexZh) [] rfl

/-- C2: a family whose default-locale member is not in the change set
and that has two or more changed members resolves as ambiguous: no
source of truth is elected, the family contributes only a skip
diagnostic, and processing continues with the remaining families. -/
theorem ambiguous_family_skipped (backend : Backend) (dl : String) (sl : List String)
    (cs : List FPath) (k : List String) (fm : Family)
    (rest : List (List String × Family))
    (hdl : dictGet? (familyChanged fm cs) dl = none)
    (hlen : 2 ≤ (familyChanged fm cs).length) :
    resolve fm dl cs = ResolveResult.ambiguous ∧
    runFamily backend dl sl cs (k, fm) = ([Event.skipAmbiguous k], none) ∧
    runAll backend dl sl cs ((k, fm) :: rest) =
      (Event.skipAmbiguous k :: (runAll backend dl sl cs rest).1,
        (runAll backend dl sl cs rest).2) := by
  have hres : resolve fm dl cs = ResolveResult.ambiguous := by
    unfold resolve
    rw [hdl]
    rcases hfc : familyChanged fm cs with _ | ⟨x, _ | ⟨y, t⟩⟩
    · rw [hfc] at hlen; simp at hlen
    · rw [hfc] at hlen; simp at hlen
    · rfl
  have hrf : runFamily backend dl sl cs (k, fm) = ([Event.skipAmbiguous k], none) := by
    unfold runFamily
    rw [hres]
  refine ⟨hres, hrf, ?_⟩
  show seqRun (runFamily backend dl sl cs (k, fm))
      (fun _ => runAll backend dl sl cs rest) = _
  rw [hrf]
  simp [seqRun]

/-- C2 witness: a two-member family with both non-default members
changed is skipped and the following family is still processed. -/
theorem ambiguous_family_skipped_witness :
    resolve [("zh", pIndexZh), ("fr", pIndexFr)] "en" [pIndexZh, pIndexFr] =
      ResolveResult.ambiguous ∧
    runAll (fun _ => none) "en" ["en", "zh", "fr"] [pIndexZh, pIndexFr]
        [(keyIndex, [("zh", pIndexZh), ("fr", pIndexFr)]), (keyAlpha, [("en", pAlphaEn)])] =
      (Event.skipAmbiguous keyIndex ::
          (runAll (fun _ => none) "en" ["en", "zh", "fr"] [pIndexZh, pIndexFr]
            [(keyAlpha, [("en", pAlphaEn)])]).1,
        (runAll (fun _ => none) "en" ["en", "zh", "fr"] [pIndexZh, pIndexFr]
          [(keyAlpha, [("en", pAlphaEn)])]).2) := by
  refine ⟨?_, ?_⟩
  · exact (ambiguous_family_skipped (fun _ => none) "en" ["en", "zh", "fr"]
      [pIndexZh, pIndexFr] keyIndex [("zh", pIndexZh), ("fr", pIndexFr)]
      [(keyAlpha, [("en", pAlphaEn)])] (by decide) (by decide)).1
  · exact (ambiguous_family_skipped (fun _ => none) "en" ["en", "zh", "fr"]
      [pIndexZh, pIndexFr] keyIndex [("zh", pIndexZh), ("fr", pIndexFr)]
      [(keyAlpha, [("en", pAlphaEn)])] (by decide) (by decide)).2.2

/-! ### Path-rendering lemmas -/

theorem joinSlash_cons (a : String) (r : List String) (hr : r ≠ []) :
    joinSlash (a :: r) = a ++ "/" ++ joinSlash r := by
  cases r with
  | nil => exact absurd rfl hr
  | cons b t => rfl

theorem appendToLast_ne_nil (s : String) (k : List String) : appendToLast s k ≠ [] := by
  cases k with
  | nil => simp [appendToLast]
  | cons a t =>
    cases t with
    | nil => simp [appendToLast]
    | cons b t2 => simp [appendToLast]

/-- Appending to the last component renders exactly as string
concatenation on the rendered path. -/
theorem joinSlash_appendToLast (s : String) (k : List String) (hk : k ≠ []) :
    joinSlash (appendToLast s k) = joinSlash k ++ s := by
  induction k with
  | nil => exact absurd rfl hk
  | cons a t ih =>
    cases t with
    | nil => rfl
    | cons b t2 =>
      have ht : (b :: t2 : List String) ≠ [] := by simp
      show joinSlash (a :: appendToLast s (b :: t2)) = joinSlash (a :: b :: t2) ++ s
      rw [joinSlash_cons a _ (appendToLast_ne_nil s _), ih ht, joinSlash_cons a _ ht]
      simp [String.append_assoc]

/-- C3: the path classifier applies its three rules in order, first
match winning: a multi-segment stem whose last dot-segment is a
supported locale; else a stem that is itself a supported locale, keyed
by the containing directory; else the default-locale fallback. -/
theorem classifier_rules (p : FPath) (dl : String) (sl : List String) :
    ((pySplit '.' p.stem).length > 1 → (pySplit '.' p.stem).getLastD "" ∈ sl →
      get_path_prefix_and_lang p dl sl =
        (p.dir ++ [joinWith "." (pySplit '.' p.stem).dropLast],
          (pySplit '.' p.stem).getLastD "")) ∧
    (¬((pySplit '.' p.stem).length > 1 ∧ (pySplit '.' p.stem).getLastD "" ∈ sl) →
      p.stem ∈ sl →
      get_path_prefix_and_lang p dl sl = (p.dir, p.stem)) ∧
    (¬((pySplit '.' p.stem).length > 1 ∧ (pySplit '.' p.stem).getLastD "" ∈ sl) →
      p.stem ∉ sl →
      get_path_prefix_and_lang p dl sl = (p.dir ++ [p.stem], dl)) := by
  refine ⟨?_, ?_, ?_⟩
  · intro h1 h2
    simp only [get_path_prefix_and_lang]
    rw [if_pos ⟨h1, h2⟩]
  · intro h1 h2
    simp only [get_path_prefix_and_lang]
    rw [if_neg h1, if_pos h2]
  · intro h1 h2
    simp only [get_path_prefix_and_lang]
    rw [if_neg h1, if_neg h2]

/-- C3 witness: the three classifier rules at the spec's examples:
`docs/index.en.mdx`, `messages/en.json` and `docs/index.mdx` with
default locale `en` and supported locales `en`, `zh`. -/
theorem classifier_rules_witness :
    get_path_prefix_and_lang ⟨["docs"], "index.en", ".mdx"⟩ "en" ["en", "zh"] =
      (["docs", "index"], "en") ∧
    get_path_prefix_and_lang ⟨["messages"], "en", ".json"⟩ "en" ["en", "zh"] =
      (["messages"], "en") ∧
    get_path_prefix_and_lang ⟨["docs"], "index", ".mdx"⟩ "en" ["en", "zh"] =
      (["docs", "index"], "en") := by
  refine ⟨?_, ?_, ?_⟩
  · exact (classifier_rules ⟨["docs"], "index.en", ".mdx"⟩ "en" ["en", "zh"]).1
      (by decide) (by decide)
  · exact (classifier_rules ⟨["messages"], "en", ".json"⟩ "en" ["en", "zh"]).2.1
      (by decide) (by decide)
  · exact (classifier_rules ⟨["docs"], "index", ".mdx"⟩ "en" ["en", "zh"]).2.2
      (by decide) (by decide)

/-- C4: destination synthesis for a newly created locale `L`: when the
source file's stem is itself a supported locale, the destination is
the family key (which rule 2 of the classifier makes the family's
directory, locale codes containing no dot) joined with `L ++ ext`;
otherwise, rendering paths as strings with prefix `P = joinSlash
famKey`, the destination renders as `P ++ ext` for the default locale
and `P ++ "." ++ L ++ ext` otherwise; and the write loop makes the
destination's parent directories immediately before each write. -/
theorem creation_destination_rules (famKey : List String) (sot : FPath) (lang dl : String)
    (sl : List String) :
    (sot.stem ∈ sl →
      creationTargetComponents famKey sot lang dl sl = famKey ++ [lang ++ sot.ext]) ∧
    (sot.stem ∈ sl → pySplit '.' sot.stem = [sot.stem] →
      (get_path_prefix_and_lang sot dl sl).1 = sot.dir) ∧
    (sot.stem ∉ sl → lang = dl → famKey ≠ [] →
      joinSlash (creationTargetComponents famKey sot lang dl sl) =
        joinSlash famKey ++ sot.ext) ∧
    (sot.stem ∉ sl → lang ≠ dl → famKey ≠ [] →
      joinSlash (creationTargetComponents famKey sot lang dl sl) =
        joinSlash famKey ++ "." ++ lang ++ sot.ext) ∧
    (∀ results : List (String × String),
      writeCreationResults famKey sot dl sl results =
        results.flatMap (fun lc =>
          [FsAction.mkdirParents
              (creationTargetComponents famKey sot lc.1 dl sl).dropLast,
            FsAction.writeFile (creationTargetComponents famKey sot lc.1 dl sl) lc.2])) := by
  refine ⟨?_, ?_, ?_, ?_, ?_⟩
  · intro h1
    simp only [creationTargetComponents, if_pos h1]
  · intro h1 hsplit
    simp [get_path_prefix_and_lang, hsplit, h1]
  · intro h1 h2 hk
    simp only [creationTargetComponents, if_neg h1, if_pos h2]
    exact joinSlash_appendToLast sot.ext famKey hk
  · intro h1 h2 hk
    simp only [creationTargetComponents, if_neg h1, if_neg h2]
    rw [joinSlash_appendToLast _ famKey hk]
    simp [String.append_assoc]
  · intro results
    rfl

/-- C4 witness: the bare-locale form `messages/zh.json` creating `ko`
lands in `messages/ko.json`; the dotted/default family
`content/docs/guide/index` with source `index.mdx` creates the default
locale at `...index.mdx` and `zh` at `...index.zh.mdx`; the write loop
emits mkdir-then-write per result. -/
theorem creation_destination_rules_witness :
    creationTargetComponents ["messages"] pMsgZh "ko" "en" ["en", "zh", "ko"] =
      ["messages", "ko.json"] ∧
    (get_path_prefix_and_lang pMsgZh "en" ["en", "zh", "ko"]).1 = ["messages"] ∧
    joinSlash (creationTargetComponents keyIndex pIndexEn "en" "en" ["en", "zh"]) =
      joinSlash keyIndex ++ ".mdx" ∧
    joinSlash (creationTargetComponents keyIndex pIndexEn "zh" "en" ["en", "zh"]) =
      joinSlash keyIndex ++ "." ++ "zh" ++ ".mdx" ∧
    writeCreationResults ["messages"] pMsgZh "en" ["en", "zh", "ko"] [("ko", "hello")] =
      [FsAction.mkdirParents ["messages"],
        FsAction.writeFile ["messages", "ko.json"] "hello"] := by
  refine ⟨?_, ?_, ?_, ?_, ?_⟩
  · exact (creation_destination_rules ["messages"] pMsgZh "ko" "en" ["en", "zh", "ko"]).1
      (by decide)
  · exact (creation_destination_rules ["messages"] pMsgZh "ko" "en" ["en", "zh", "ko"]).2.1
      (by decide) (by decide)
  · exact (creation_destination_rules keyIndex pIndexEn "en" "en" ["en", "zh"]).2.2.1
      (by decide) rfl (by decide)
  · exact (creation_destination_rules keyIndex pIndexEn "zh" "en" ["en", "zh"]).2.2.2.1
      (by decide) (by decide) (by decide)
  · exact ((creation_destination_rules ["messages"] pMsgZh "en"
      "en" ["en", "zh", "ko"]).2.2.2.2 [("ko", "hello")]).trans (by decide)

/-! ### Target-planner lemmas -/

theorem mem_targets_to_create (fm : Family) (sl : List String) (l : String) :
    l ∈ targets_to_create fm sl ↔ l ∈ sl ∧ dictGet? fm l = none := by
  simp [targets_to_create, List.mem_filter]

theorem mem_targets_to_update (fm : Family) (sl : List String) (sot l : String) :
    l ∈ targets_to_update fm sl sot ↔
      l ∈ sl ∧ (dictGet? fm l).isSome = true ∧ l ≠ sot := by
  simp [targets_to_update, List.mem_filter, and_assoc]

/-- C5: for a family whose locale keys all lie in the supported-locale
list, the planned creations, the planned updates and the elected
source-of-truth locale are pairwise disjoint and jointly cover the
whole supported-locale list. -/
theorem target_partition (fm : Family) (dl : String) (sl : List String) (cs : List FPath)
    (sot : String) (p : FPath)
    (hkeys : ∀ lp ∈ fm, lp.1 ∈ sl)
    (hres : resolve fm dl cs = ResolveResult.ok sot p) :
    (∀ l, ¬(l ∈ targets_to_create fm sl ∧ l ∈ targets_to_update fm sl sot)) ∧
    sot ∉ targets_to_create fm sl ∧
    sot ∉ targets_to_update fm sl sot ∧
    (∀ l, l ∈ sl ↔
      (l ∈ targets_to_create fm sl ∨ l ∈ targets_to_update fm sl sot ∨ l = sot)) := by
  have hmem : (sot, p) ∈ fm := resolve_ok_mem hres
  have hsot_sl : sot ∈ sl := hkeys (sot, p) hmem
  have hsot_some : (dictGet? fm sot).isSome = true := dictGet?_isSome_of_mem hmem
  refine ⟨?_, ?_, ?_, ?_⟩
  · rintro l ⟨h1, h2⟩
    rw [mem_targets_to_create] at h1
    rw [mem_targets_to_update] at h2
    rw [h1.2] at h2
    simp at h2
  · intro h
    rw [mem_targets_to_create] at h
    rw [h.2] at hsot_some
    simp at hsot_some
  · intro h
    rw [mem_targets_to_update] at h
    exact h.2.2 rfl
  · intro l
    constructor
    · intro hl
      by_cases hcase : dictGet? fm l = none
      · exact Or.inl ((mem_targets_to_create fm sl l).2 ⟨hl, hcase⟩)
      · by_cases hsotl : l = sot
        · exact Or.inr (Or.inr hsotl)
        · refine Or.inr (Or.inl ((mem_targets_to_update fm sl sot l).2 ⟨hl, ?_, hsotl⟩))
          cases hge : dictGet? fm l with
          | none => exact absurd hge hcase
          | some v => rfl
    · intro h
      rcases h with h | h | h
      · exact ((mem_targets_to_create fm sl l).1 h).1
      · exact ((mem_targets_to_update fm sl sot l).1 h).1
      · rw [h]; exact hsot_sl

/-- C5 witness: for the family with `en` and `zh` members, elected
source `en`, supported locales `en`, `zh`, `fr`: the missing `fr` is
covered exactly by the creation set. -/
theorem target_partition_witness :
    ("fr" ∈ ["en", "zh", "fr"] ↔
      ("fr" ∈ targets_to_create [("en", pIndexEn), ("zh", pIndexZh)] ["en", "zh", "fr"] ∨
       "fr" ∈ targets_to_update [("en", pIndexEn), ("zh", pIndexZh)] ["en", "zh", "fr"] "en" ∨
       "fr" = "en")) ∧
    "en" ∉ targets_to_create [("en", pIndexEn), ("zh", pIndexZh)] ["en", "zh", "fr"] := by
  constructor
  · exact (target_partition [("en", pIndexEn), ("zh", pIndexZh)] "en" ["en", "zh", "fr"] []
      "en" pIndexEn (by decide) (by decide)).2.2.2 "fr"
  · exact (target_partition [("en", pIndexEn), ("zh", pIndexZh)] "en" ["en", "zh", "fr"] []
      "en" pIndexEn (by decide) (by decide)).2.1

/-- C6 counterexample: the change filter does not return the family
map unchanged on every empty change set.  The argument string `","` is
truthy for Python, so filtering runs, yet it parses to zero changed
paths: the parsed change set is empty and every family is filtered
out instead of being kept. -/
theorem changeFilter_empty_changeset_counterexample :
    changedArgOfString "," (fun _ => pIndexEn) = some [] ∧
    changeFilterStep [(keyIndex, [("en", pIndexEn)])]
        (changedArgOfString "," (fun _ => pIndexEn)) = [] ∧
    [(keyIndex, [("en", pIndexEn)])] ≠ ([] : Families) := by
  refine ⟨by decide, by decide, by decide⟩

/-- C6 (amended): the change filter keeps exactly the families with at
least one member path in the change set; the family map is returned
unchanged only when the change-files argument is absent (the empty
string, full-scan mode), and a present argument that parses to an
empty change set filters every family out. -/
theorem changeFilter_characterization (fams : Families) (cs : List FPath) :
    (∀ kv, kv ∈ changeFilterStep fams (some cs) ↔
      (kv ∈ fams ∧ ∃ lp ∈ kv.2, lp.2 ∈ cs)) ∧
    changeFilterStep fams none = fams ∧
    changeFilterStep fams (some []) = [] := by
  refine ⟨?_, rfl, ?_⟩
  · intro kv
    simp [changeFilterStep, changeFilter, List.mem_filter]
  · simp [changeFilterStep, changeFilter]

/-- C6 witness: a family containing a changed path is kept; with an
absent argument the map is returned unchanged. -/
theorem changeFilter_characterization_witness :
    ((keyIndex, [("en", pIndexEn)]) ∈
      changeFilterStep [(keyIndex, [("en", pIndexEn)])] (some [pIndexEn])) ∧
    changeFilterStep [(keyIndex, [("en", pIndexEn)])] none =
      [(keyIndex, [("en", pIndexEn)])] := by
  constructor
  · exact ((changeFilter_characterization [(keyIndex, [("en", pIndexEn)])] [pIndexEn]).1
      (keyIndex, [("en", pIndexEn)])).2 (by decide)
  · exact (changeFilter_characterization [(keyIndex, [("en", pIndexEn)])] []).2.1

/-- C7 counterexample: a backend failure in one family does prevent
the remaining families from being attempted.  With a backend whose
calls raise, the run over two one-member families stops at the first
family's creation call: the only event is that call, the error
propagates, and the second family is never attempted. -/
theorem uncaught_backend_error_counterexample :
    runAll (fun _ => some "boom") "en" ["en", "zh"] []
        [(keyAlpha, [("en", pAlphaEn)]), (keyBeta, [("en", pBetaEn)])] =
      ([Event.createCall keyAlpha "en" pAlphaEn ["zh"]], some "boom") ∧
    Event.createCall keyBeta "en" pBetaEn ["zh"] ∉
      (runAll (fun _ => some "boom") "en" ["en", "zh"] []
        [(keyAlpha, [("en", pAlphaEn)]), (keyBeta, [("en", pBetaEn)])]).1 := by
  refine ⟨by decide, by decide⟩

/-- C7 (amended): a failure raised by the translation backend while
processing one family propagates out of the per-family loop (which has
no handler): the run stops with that family's events and error, and
the remaining families are not attempted. -/
theorem backend_failure_aborts (backend : Backend) (dl : String) (sl : List String)
    (cs : List FPath) (f : List String × Family) (rest : List (List String × Family))
    (evs : List Event) (e : String)
    (h : runFamily backend dl sl cs f = (evs, some e)) :
    runAll backend dl sl cs (f :: rest) = (evs, some e) := by
  show seqRun (runFamily backend dl sl cs f) (fun _ => runAll backend dl sl cs rest) = _
  rw [h]
  rfl

/-- C7 witness: a failing creation call in the first family aborts the
run even with another family pending. -/
theorem backend_failure_aborts_witness :
    runAll (fun _ => some "kaput") "en" ["en", "zh"] []
        [(keyBeta, [("en", pBetaEn)]), (keyAlpha, [("en", pAlphaEn)])] =
      ([Event.createCall keyBeta "en" pBetaEn ["zh"]], some "kaput") :=
  backend_failure_aborts (fun _ => some "kaput") "en" ["en", "zh"] []
    (keyBeta, [("en", pBetaEn)]) [(keyAlpha, [("en", pAlphaEn)])]
    [Event.createCall keyBeta "en" pBetaEn ["zh"]] "kaput" (by decide)

/-- C8: whenever filtering by the change set yields no families, the
run exits successfully (the `sys.exit(0)` branch) with no events, so
zero creation or update calls are issued to the backend. -/
theorem empty_filter_short_circuit (backend : Backend) (dl : String) (sl : List String)
    (files : List FPath) (cs : List FPath)
    (h : changeFilter (buildFamilies files dl sl) cs = []) :
    mainRun backend dl sl files (some cs) = ⟨[], true, none⟩ := by
  simp [mainRun, h]

/-- C8 witness: a change set touching no scanned family makes the run
exit successfully with zero backend calls. -/
theorem empty_filter_short_circuit_witness :
    mainRun (fun _ => none) "en" ["en", "zh"] [pAlphaEn] (some [pIndexZh]) =
      ⟨[], true, none⟩ :=
  empty_filter_short_circuit (fun _ => none) "en" ["en", "zh"] [pAlphaEn] [pIndexZh]
    (by decide)

/-! ### Family-builder invariants -/

/-- The scan loop never produces an empty family: a family key is only
created at the moment a classified file is inserted under it. -/
theorem buildFamilies_loop_nonempty (dl : String) (sl : List String) :
    ∀ (files : List FPath) (acc : Families),
      (∀ kv ∈ acc, kv.2 ≠ []) →
      ∀ kv ∈ files.foldl (addFile dl sl) acc, kv.2 ≠ [] := by
  intro files
  induction files with
  | nil => intro acc hacc kv hkv; exact hacc kv hkv
  | cons p files ih =>
    intro acc hacc kv hkv
    rw [List.foldl_cons] at hkv
    refine ih (addFile dl sl acc p) ?_ kv hkv
    intro kv2 hkv2
    unfold addFile at hkv2
    by_cases hw : wantedFile p = true
    · rw [if_pos hw] at hkv2
      rcases mem_dictInsert hkv2 with h | h
      · exact hacc kv2 h
      · rw [h]
        exact dictInsert_ne_nil _ _ _
    · rw [if_neg hw] at hkv2
      exact hacc kv2 hkv2

/-- The classifier only produces locales that are supported or equal
to the default locale. -/
theorem classify_lang_mem (p : FPath) (dl : String) (sl : List String) :
    (get_path_prefix_and_lang p dl sl).2 ∈ sl ∨ (get_path_prefix_and_lang p dl sl).2 = dl := by
  simp only [get_path_prefix_and_lang]
  by_cases h1 : (pySplit '.' p.stem).length > 1 ∧ (pySplit '.' p.stem).getLastD "" ∈ sl
  · rw [if_pos h1]; exact Or.inl h1.2
  · rw [if_neg h1]
    by_cases h2 : p.stem ∈ sl
    · rw [if_pos h2]; exact Or.inl h2
    · rw [if_neg h2]; exact Or.inr rfl

/-- Every locale key of a scan-built family is supported or the
default locale. -/
theorem buildFamilies_loop_langs (dl : String) (sl : List String) :
    ∀ (files : List FPath) (acc : Families),
      (∀ kv ∈ acc, ∀ lp ∈ kv.2, lp.1 ∈ sl ∨ lp.1 = dl) →
      ∀ kv ∈ files.foldl (addFile dl sl) acc, ∀ lp ∈ kv.2, lp.1 ∈ sl ∨ lp.1 = dl := by
  intro files
  induction files with
  | nil => intro acc hacc; exact hacc
  | cons p files ih =>
    intro acc hacc kv hkv
    rw [List.foldl_cons] at hkv
    refine ih (addFile dl sl acc p) ?_ kv hkv
    intro kv2 hkv2 lp hlp
    unfold addFile at hkv2
    by_cases hw : wantedFile p = true
    · rw [if_pos hw] at hkv2
      rcases mem_dictInsert hkv2 with h | h
      · exact hacc kv2 h lp hlp
      · have hlp2 : lp ∈ dictInsert
            ((dictGet? acc (get_path_prefix_and_lang p dl sl).1).getD [])
            (get_path_prefix_and_lang p dl sl).2 p := by
          rw [h] at hlp
          exact hlp
        rcases mem_dictInsert hlp2 with h2 | h2
        · cases hsub : dictGet? acc (get_path_prefix_and_lang p dl sl).1 with
          | none => rw [hsub] at h2; simp at h2
          | some fmv =>
            rw [hsub] at h2
            exact hacc ((get_path_prefix_and_lang p dl sl).1, fmv) (dictGet?_mem hsub) lp h2
        · rw [h2]
          exact classify_lang_mem p dl sl
    · rw [if_neg hw] at hkv2
      exact hacc kv2 hkv2 lp hlp

/-- C9: every family produced by the scan contains at least one
(locale, path) entry, and consequently the resolver's empty-family
error branch is unreachable for scan-built families. -/
theorem built_families_nonempty (files : List FPath) (dl : String) (sl : List String)
    (cs : List FPath) (kv : List String × Family)
    (h : kv ∈ buildFamilies files dl sl) :
    kv.2 ≠ [] ∧ resolve kv.2 dl cs ≠ ResolveResult.emptyFamily := by
  have hne : kv.2 ≠ [] :=
    buildFamilies_loop_nonempty dl sl files [] (by intro kv2 h2; simp at h2) kv h
  exact ⟨hne, resolve_ne_emptyFamily dl cs hne⟩

/-- C9 witness: the family built from a single scanned file is
non-empty and resolves without hitting the error branch. -/
theorem built_families_nonempty_witness :
    ((keyAlpha, [("en", pAlphaEn)]) : List String × Family).2 ≠ [] ∧
    resolve ((keyAlpha, [("en", pAlphaEn)]) : List String × Family).2 "en" [] ≠
      ResolveResult.emptyFamily :=
  built_families_nonempty [pAlphaEn] "en" ["en", "zh"] []
    (keyAlpha, [("en", pAlphaEn)]) (by decide)

/-- C10: when the default locale is a key of the supported-locale
mapping, the elected source-of-truth locale of any scan-built family
is a key of both the mapping and its family, so the display-name
lookups `locales_map[source_of_truth_lang]` of the creation and update
paths always succeed.  (The code never checks this precondition after
reading the configuration; it is what makes the unchecked lookups
safe.) -/
theorem source_lookup_total (files : List FPath) (locales_map : List (String × String))
    (dl : String) (cs : List FPath) (kv : List String × Family) (sot : String) (p : FPath)
    (hdl : dl ∈ locales_map.map Prod.fst)
    (hmem : kv ∈ buildFamilies files dl (locales_map.map Prod.fst))
    (hres : resolve kv.2 dl cs = ResolveResult.ok sot p) :
    (dictGet? locales_map sot).isSome = true ∧ (dictGet? kv.2 sot).isSome = true := by
  have hin : (sot, p) ∈ kv.2 := resolve_ok_mem hres
  have hlang : sot ∈ locales_map.map Prod.fst ∨ sot = dl :=
    buildFamilies_loop_langs dl (locales_map.map Prod.fst) files []
      (by intro kv2 h2; simp at h2) kv hmem (sot, p) hin
  have hsl : sot ∈ locales_map.map Prod.fst := by
    rcases hlang with h | h
    · exact h
    · rw [h]; exact hdl
  exact ⟨(dictGet?_isSome_iff locales_map sot).2 hsl, dictGet?_isSome_of_mem hin⟩

/-- C10 witness: for the registry mapping `en` and `zh` to display
names and a one-file scan, both lookups succeed for the elected
source locale. -/
theorem source_lookup_total_witness :
    (dictGet? [("en", "English"), ("zh", "Chinese")] "en").isSome = true ∧
    (dictGet? (((keyAlpha, [("en", pAlphaEn)]) : List String × Family)).2 "en").isSome = true :=
  source_lookup_total [pAlphaEn] [("en", "English"), ("zh", "Chinese")] "en" []
    (keyAlpha, [("en", pAlphaEn)]) "en" pAlphaEn (by decide) (by decide) (by decide)
